import Mathlib

/-!
Verification of the self-contained algorithmic core of a browser image-classifier
demo: the evaluation-metrics engine (`Predictor.calculateMetrics`,
`Predictor.generateConfusionMatrix`), the from-scratch random forest
(`RandomForestTrainer`), the prediction aggregator (`Predictor.predictImage`)
and the model registry (`ModelManager`).

The JavaScript source is shallowly embedded: machine floats become `ℚ`
(the claims under scrutiny are about exact small fractions, lengths and
control flow, never about rounding), JavaScript exceptions become `Option` /
`Except` results, `Math.random()` draws become an explicit stream
`g : ℕ → ℕ` consumed at an explicit position (`Math.floor(Math.random()*n)`
is modelled as `g pos % n`), and the float `Math.log2` becomes an abstract
parameter `log2 : ℚ → ℚ` — every theorem proved below holds for an arbitrary
`log2`, so nothing depends on the numeric value of a logarithm.
-/

namespace AIC

/-! ## Evaluation engine (`Predictor.calculateMetrics`) -/

/-- `matrix[i][j]` with JavaScript's `|| 0` coalescing of missing entries. -/
def mEntry (m : List (List ℕ)) (i j : ℕ) : ℕ :=
  (m.getD i []).getD j 0

/-- `truePositives = confusionMatrix[i][i] || 0`. -/
def truePos (m : List (List ℕ)) (i : ℕ) : ℕ := mEntry m i i

/-- The `falsePositives` accumulation loop:
`for j: if (i !== j) falsePositives += confusionMatrix[j][i] || 0`. -/
def falsePosA (m : List (List ℕ)) (i : ℕ) : ℕ :=
  (List.range m.length).foldl (fun acc j => if i ≠ j then acc + mEntry m j i else acc) 0

/-- The `falseNegatives` accumulation loop:
`for j: if (i !== j) falseNegatives += confusionMatrix[i][j] || 0`. -/
def falseNegA (m : List (List ℕ)) (i : ℕ) : ℕ :=
  (List.range m.length).foldl (fun acc j => if i ≠ j then acc + mEntry m i j else acc) 0

/-- `precision = TP + FP > 0 ? TP / (TP + FP) : 0`. -/
def classPrecision (m : List (List ℕ)) (i : ℕ) : ℚ :=
  if 0 < truePos m i + falsePosA m i then
    (truePos m i : ℚ) / ((truePos m i : ℚ) + (falsePosA m i : ℚ))
  else 0

/-- `recall = TP + FN > 0 ? TP / (TP + FN) : 0`. -/
def classRecall (m : List (List ℕ)) (i : ℕ) : ℚ :=
  if 0 < truePos m i + falseNegA m i then
    (truePos m i : ℚ) / ((truePos m i : ℚ) + (falseNegA m i : ℚ))
  else 0

/-- `f1 = precision + recall > 0 ? 2*(P*R)/(P+R) : 0`. -/
def classF1 (m : List (List ℕ)) (i : ℕ) : ℚ :=
  let p := classPrecision m i
  let r := classRecall m i
  if 0 < p + r then 2 * (p * r) / (p + r) else 0

/-- The metrics record built by `Predictor.calculateMetrics`. -/
structure Metrics where
  accuracy : ℚ
  precision : List ℚ
  recallScore : List ℚ
  f1Score : List ℚ
  support : List ℕ
deriving DecidableEq

/-- `Predictor.calculateMetrics(confusionMatrix)`: per-class precision /
recall / F1 / support plus the global accuracy
`totalPredictions > 0 ? correctPredictions / totalPredictions : 0` where the
loop accumulates `correctPredictions += TP_i` and
`totalPredictions += TP_i + FP_i + FN_i`. -/
def calculateMetrics (m : List (List ℕ)) : Metrics :=
  let n := m.length
  let correct := ((List.range n).map (fun i => truePos m i)).sum
  let total := ((List.range n).map (fun i => truePos m i + falsePosA m i + falseNegA m i)).sum
  { accuracy := if 0 < total then (correct : ℚ) / (total : ℚ) else 0
    precision := (List.range n).map (fun i => classPrecision m i)
    recallScore := (List.range n).map (fun i => classRecall m i)
    f1Score := (List.range n).map (fun i => classF1 m i)
    support := (List.range n).map (fun i => truePos m i + falseNegA m i) }

/-- A confusion matrix is square when every row has as many entries as there
are rows. -/
def IsSquare (m : List (List ℕ)) : Prop :=
  ∀ row ∈ m, row.length = m.length

instance (m : List (List ℕ)) : Decidable (IsSquare m) := by
  unfold IsSquare; infer_instance

/-- Modelled from the spec's words (claim C2): global accuracy is
`(Σ_i matrix[i][i]) / (Σ_i TP_i + FP_i + FN_i)` with
`FP_i = Σ_{j ≠ i} matrix[j][i]`, `FN_i = Σ_{j ≠ i} matrix[i][j]`,
and `0` when the denominator is `0`. -/
def specGlobalAccuracy (m : List (List ℕ)) : ℚ :=
  let n := m.length
  let tp := fun i => mEntry m i i
  let fp := fun i => ∑ j ∈ (Finset.range n).erase i, mEntry m j i
  let fn := fun i => ∑ j ∈ (Finset.range n).erase i, mEntry m i j
  let den := ∑ i ∈ Finset.range n, (tp i + fp i + fn i)
  if den = 0 then 0 else ((∑ i ∈ Finset.range n, tp i : ℕ) : ℚ) / (den : ℚ)

/-! ## Feature extraction (`RandomForestTrainer.computeImageFeatures` /
`RandomForestTrainer.extractFeatures`)

A decoded image is its RGBA byte list (`ImageData.data`, values `0..255`,
length a multiple of 4).  The external `Image`/canvas decoding collaborator is
out of scope: an input image is `some data` when decoding supplied pixels and
`none` when `extractImageFeatures` rejected (the `catch` branch). -/

/-- One iteration of the histogram loop
`for (i = 0; i < data.length; i += 4) { rHist[Math.floor(r/64)]++; ... }`,
folded over the pixel indices. -/
def histStep (data : List ℕ) (h : List ℕ × List ℕ × List ℕ) (k : ℕ) :
    List ℕ × List ℕ × List ℕ :=
  let i := 4 * k
  let r := data.getD i 0
  let g := data.getD (i + 1) 0
  let b := data.getD (i + 2) 0
  (h.1.set (r / 64) (h.1.getD (r / 64) 0 + 1),
   h.2.1.set (g / 64) (h.2.1.getD (g / 64) 0 + 1),
   h.2.2.set (b / 64) (h.2.2.getD (b / 64) 0 + 1))

/-- The three 4-bin colour histograms (`rHist`, `gHist`, `bHist`). -/
def histTriple (data : List ℕ) : List ℕ × List ℕ × List ℕ :=
  (List.range ((data.length + 3) / 4)).foldl (histStep data)
    (List.replicate 4 0, List.replicate 4 0, List.replicate 4 0)

/-- `rHist.reduce((sum, val, idx) => sum + val * (idx * 64 + 32), 0)`. -/
def histWeightedSum (hist : List ℕ) : ℕ :=
  (hist.enum.map (fun p => p.2 * (p.1 * 64 + 32))).sum

/-- `RandomForestTrainer.computeImageFeatures(imageData)`: normalized 4-bin
histograms for the three colour channels followed by the three channel
means. -/
def computeImageFeatures (data : List ℕ) : List ℚ :=
  let h := histTriple data
  let totalPixels : ℚ := (data.length : ℚ) / 4
  (h.1.map (fun v : ℕ => (v : ℚ) / totalPixels)) ++
  (h.2.1.map (fun v : ℕ => (v : ℚ) / totalPixels)) ++
  (h.2.2.map (fun v : ℕ => (v : ℚ) / totalPixels)) ++
  [(histWeightedSum h.1 : ℚ) / totalPixels / 255,
   (histWeightedSum h.2.1 : ℚ) / totalPixels / 255,
   (histWeightedSum h.2.2 : ℚ) / totalPixels / 255]

/-- `RandomForestTrainer.extractFeatures(images)`: per image, the computed
features; on a per-sample failure the `catch` branch pushes
`new Array(24).fill(0)`. -/
def extractFeatures (images : List (Option (List ℕ))) : List (List ℚ) :=
  images.map (fun img =>
    match img with
    | some data => computeImageFeatures data
    | none => List.replicate 24 (0 : ℚ))

/-! ## Decision trees and the random forest (`RandomForestTrainer`) -/

/-- `Math.floor(Math.random() * n)` at stream position `pos` (`0` when
`n = 0`, as in JavaScript). -/
def randIdx (g : ℕ → ℕ) (pos n : ℕ) : ℕ :=
  if n = 0 then 0 else g pos % n

/-- The iteration underlying `[...new Set(xs)]`: keep an element unless it was
already seen. -/
def dedupFirstAux [DecidableEq α] (seen : List α) : List α → List α
  | [] => []
  | x :: xs =>
      if seen.contains x then dedupFirstAux seen xs
      else x :: dedupFirstAux (x :: seen) xs

/-- `[...new Set(xs)]`: distinct elements, first occurrences, in order. -/
def dedupFirst [DecidableEq α] (l : List α) : List α :=
  dedupFirstAux [] l

/-- `Object.keys` of a counts object keyed by the numeric labels: the distinct
label values in ascending numeric order (JavaScript enumerates array-index
keys in ascending order). -/
def objKeys (labels : List ℕ) : List ℕ :=
  (List.range (labels.foldr max 0 + 1)).filter (fun k => labels.contains k)

/-- `keys.reduce((a, b) => counts[a] > counts[b] ? a : b)` — `none` models the
`TypeError` JavaScript throws when reducing an empty array with no initial
value. -/
def reduceMax (counts : ℕ → ℕ) : List ℕ → Option ℕ
  | [] => none
  | k :: ks => some (ks.foldl (fun a b => if counts a > counts b then a else b) k)

/-- `TreeNode`: `createLeafNode` leaves carry a distribution, the
single-label early-exit leaf does not (`distribution := none`). -/
inductive Tree where
  | leaf (value : ℕ) (count : ℕ) (distribution : Option (List (ℕ × ℕ)))
  | node (featureIndex : ℕ) (threshold : Option ℚ) (left right : Tree)
deriving DecidableEq

/-- `RandomForestTrainer.createLeafNode(labels)`. -/
def createLeafNode (labels : List ℕ) : Option Tree :=
  match reduceMax (fun l => labels.count l) (objKeys labels) with
  | none => none
  | some majority =>
      some (.leaf majority labels.length
        (some ((objKeys labels).map (fun k => (k, labels.count k)))))

/-- `features[i][featureIndex] <= threshold` with JavaScript semantics: a
comparison against `undefined` (a missing entry, or an `undefined` threshold)
is false. -/
def featLE (row : List ℚ) (fi : ℕ) (t : Option ℚ) : Bool :=
  match row.get? fi, t with
  | some x, some y => decide (x ≤ y)
  | _, _ => false

/-- `RandomForestTrainer.calculateEntropy(labels)` with the float `Math.log2`
abstracted as `log2`. -/
def calculateEntropy (log2 : ℚ → ℚ) (labels : List ℕ) : ℚ :=
  if labels.length = 0 then 0
  else
    -((objKeys labels).map (fun k =>
        let p : ℚ := (labels.count k : ℚ) / (labels.length : ℚ)
        p * log2 p)).sum

/-- `RandomForestTrainer.calculateInformationGain`. -/
def calculateInformationGain (log2 : ℚ → ℚ) (features : List (List ℚ))
    (labels : List ℕ) (fi : ℕ) (t : Option ℚ) : ℚ :=
  let pairs := features.zip labels
  let leftLabels := (pairs.filter (fun p => featLE p.1 fi t)).map (fun p => p.2)
  let rightLabels := (pairs.filter (fun p => ¬ featLE p.1 fi t)).map (fun p => p.2)
  let total : ℚ := (labels.length : ℚ)
  calculateEntropy log2 labels -
    ((leftLabels.length : ℚ) / total) * calculateEntropy log2 leftLabels -
    ((rightLabels.length : ℚ) / total) * calculateEntropy log2 rightLabels

/-- A candidate split tracked by `findBestSplit`. -/
structure Split where
  featureIndex : ℕ
  threshold : Option ℚ
  gain : ℚ
deriving DecidableEq

/-- The inner `for (i = 0; i < 5; i++)` loop of `findBestSplit`: draw five
random thresholds from the distinct observed values and keep the best gain. -/
def tryThresholds (g : ℕ → ℕ) (log2 : ℚ → ℚ) (features : List (List ℚ))
    (labels : List ℕ) (fi : ℕ) (uniq : List (Option ℚ))
    (st : Option Split × ℚ × ℕ) : Option Split × ℚ × ℕ :=
  (List.range 5).foldl
    (fun st _ =>
      let t := uniq.getD (randIdx g st.2.2 uniq.length) none
      let gain := calculateInformationGain log2 features labels fi t
      if gain > st.2.1 then (some ⟨fi, t, gain⟩, gain, st.2.2 + 1)
      else (st.1, st.2.1, st.2.2 + 1))
    st

/-- The `while (triedFeatures.size < numFeaturesToTry)` loop of
`findBestSplit`, with explicit fuel (the JavaScript loop retries blindly on a
repeated random feature index; exhausted fuel stops with the best split found
so far). -/
def findBestSplitLoop (g : ℕ → ℕ) (log2 : ℚ → ℚ) (features : List (List ℚ))
    (labels : List ℕ) (numFeatures numToTry : ℕ) :
    ℕ → List ℕ → Option Split × ℚ × ℕ → Option Split × ℚ × ℕ
  | 0, _, st => st
  | fuel + 1, tried, st =>
      if numToTry ≤ tried.length then st
      else
        let fi := randIdx g st.2.2 numFeatures
        let st := (st.1, st.2.1, st.2.2 + 1)
        if tried.contains fi then
          findBestSplitLoop g log2 features labels numFeatures numToTry fuel tried st
        else
          let values := features.map (fun f => f.get? fi)
          let uniqueValues := dedupFirst values
          if uniqueValues.length ≤ 1 then
            findBestSplitLoop g log2 features labels numFeatures numToTry fuel (fi :: tried) st
          else
            findBestSplitLoop g log2 features labels numFeatures numToTry fuel (fi :: tried)
              (tryThresholds g log2 features labels fi uniqueValues st)

/-- `RandomForestTrainer.findBestSplit(features, labels)`. -/
def findBestSplit (g : ℕ → ℕ) (log2 : ℚ → ℚ) (fuel : ℕ)
    (features : List (List ℚ)) (labels : List ℕ) (pos : ℕ) : Option Split × ℕ :=
  match features with
  | [] => (none, pos)
  | f0 :: _ =>
      let numFeatures := f0.length
      let numToTry := max 1 (Nat.sqrt numFeatures)
      let st := findBestSplitLoop g log2 features labels numFeatures numToTry fuel []
        (none, -1, pos)
      (st.1, st.2.2)

/-- The splitting branch of `trainDecisionTree`: find the best split, fall
back to a leaf when none exists, otherwise partition the samples by
`features[i][featureIndex] <= threshold` and recurse (through `recur`, the
induction at the next depth) on each side; a failed recursive call propagates,
as a JavaScript exception would. -/
def trainDTSplit (recur : List (List ℚ) → List ℕ → ℕ → Option Tree × ℕ)
    (g : ℕ → ℕ) (log2 : ℚ → ℚ) (fuel : ℕ) (features : List (List ℚ))
    (labels : List ℕ) (pos : ℕ) : Option Tree × ℕ :=
  match findBestSplit g log2 fuel features labels pos with
  | (none, pos) => (createLeafNode labels, pos)
  | (some s, pos) =>
    match recur
        (((features.zip labels).filter
          (fun p => featLE p.1 s.featureIndex s.threshold)).map (fun p => p.1))
        (((features.zip labels).filter
          (fun p => featLE p.1 s.featureIndex s.threshold)).map (fun p => p.2)) pos with
    | (none, pos) => (none, pos)
    | (some lt, pos) =>
      match recur
          (((features.zip labels).filter
            (fun p => ¬ featLE p.1 s.featureIndex s.threshold)).map (fun p => p.1))
          (((features.zip labels).filter
            (fun p => ¬ featLE p.1 s.featureIndex s.threshold)).map (fun p => p.2)) pos with
      | (none, pos) => (none, pos)
      | (some rt, pos) => (some (.node s.featureIndex s.threshold lt rt), pos)

/-- `RandomForestTrainer.trainDecisionTree(features, labels, depth, maxDepth)`
indexed by the remaining depth budget `maxDepth - depth` (the first guard
`features.length === 0 || depth >= maxDepth` returns `createLeafNode(labels)`,
which *fails* on an empty label list). -/
def trainDT (g : ℕ → ℕ) (log2 : ℚ → ℚ) (fuel : ℕ) :
    ℕ → List (List ℚ) → List ℕ → ℕ → Option Tree × ℕ
  | 0, _, labels, pos => (createLeafNode labels, pos)
  | remaining + 1, features, labels, pos =>
      if features.length = 0 then (createLeafNode labels, pos)
      else
        match dedupFirst labels with
        | [l] => (some (.leaf l labels.length none), pos)
        | _ => trainDTSplit (trainDT g log2 fuel remaining) g log2 fuel features labels pos

/-- `trainDecisionTree` at an arbitrary `depth` against the default
`maxDepth = 10` bound: the remaining budget is `maxDepth - depth`. -/
def trainDecisionTreeAt (g : ℕ → ℕ) (log2 : ℚ → ℚ) (fuel : ℕ)
    (features : List (List ℚ)) (labels : List ℕ) (depth maxDepth pos : ℕ) :
    Option Tree × ℕ :=
  trainDT g log2 fuel (maxDepth - depth) features labels pos

/-- `RandomForestTrainer.traverseTree(features, tree)`. -/
def traverseTree (features : List ℚ) : Tree → ℕ
  | .leaf v _ _ => v
  | .node fi t l r => if featLE features fi t then traverseTree features l
      else traverseTree features r

/-- `RandomForestTrainer.predictInstance(features, trees)`: tally one vote per
tree and reduce the vote keys (ascending numeric order) to the majority;
`none` models the `TypeError` on an empty tree list. -/
def predictInstance (features : List ℚ) (trees : List Tree) : Option ℕ :=
  let preds := trees.map (traverseTree features)
  reduceMax (fun c => preds.count c) (objKeys preds)

/-- `RandomForestTrainer.calculateAccuracy(features, labels, trees)`
(the self-evaluation on the training set). -/
def calculateAccuracy (features : List (List ℚ)) (labels : List ℕ)
    (trees : List Tree) : ℚ :=
  let correct := ((features.zip labels).filter
    (fun p => predictInstance p.1 trees = some p.2)).length
  (correct : ℚ) / (features.length : ℚ)

/-- The bootstrap loop of `trainRandomForest`: `numSamples` draws with
replacement from the dataset (`features[randomIndex]`, `labels[randomIndex]`). -/
def bootstrapSample (g : ℕ → ℕ) (features : List (List ℚ)) (labels : List ℕ)
    (pos : ℕ) : List (List ℚ) × List ℕ × ℕ :=
  (List.range features.length).foldl
    (fun acc _ =>
      let idx := randIdx g acc.2.2 features.length
      (acc.1 ++ [features.getD idx []], acc.2.1 ++ [labels.getD idx 0], acc.2.2 + 1))
    ([], [], pos)

/-- The tree-growing loop of `trainRandomForest`: for each of `numTrees`
iterations, draw a bootstrap sample and grow one decision tree (depth 0,
`maxDepth` 10); a tree failure aborts the whole loop. -/
def trainForestTrees (g : ℕ → ℕ) (log2 : ℚ → ℚ) (fuel : ℕ) :
    ℕ → List (List ℚ) → List ℕ → ℕ → Option (List Tree) × ℕ
  | 0, _, _, pos => (some [], pos)
  | n + 1, features, labels, pos =>
      let bs := bootstrapSample g features labels pos
      match trainDT g log2 fuel 10 bs.1 bs.2.1 bs.2.2 with
      | (none, pos) => (none, pos)
      | (some t, pos) =>
        match trainForestTrees g log2 fuel n features labels pos with
        | (none, pos) => (none, pos)
        | (some ts, pos) => (some (t :: ts), pos)

/-- The trained forest: `{ trees, accuracy }`. -/
structure ForestModel where
  trees : List Tree
  accuracy : ℚ
deriving DecidableEq

/-- `RandomForestTrainer.trainRandomForest(features, labels)`. -/
def trainRandomForest (g : ℕ → ℕ) (log2 : ℚ → ℚ) (fuel numTrees : ℕ)
    (features : List (List ℚ)) (labels : List ℕ) (pos : ℕ) :
    Option ForestModel × ℕ :=
  match trainForestTrees g log2 fuel numTrees features labels pos with
  | (none, pos) => (none, pos)
  | (some trees, pos) => (some ⟨trees, calculateAccuracy features labels trees⟩, pos)

/-- `RandomForestTrainer.predict(imageDataUrl)` after feature extraction:
tally the tree votes on `features` and return
`[(votes[i] || 0) / totalTrees for i in 0..numClasses)` with
`numClasses = Math.max(...labels) + 1` over the stored training labels. -/
def predictProbabilities (trees : List Tree) (trainLabels : List ℕ)
    (features : List ℚ) : List ℚ :=
  let preds := trees.map (traverseTree features)
  let numClasses := trainLabels.foldr max 0 + 1
  (List.range numClasses).map (fun i => (preds.count i : ℚ) / (trees.length : ℚ))

/-- The dataset handed to `RandomForestTrainer.train`: per image the decoded
RGBA bytes (`none` when the external decoding collaborator fails) and the
integer labels. -/
structure RFDataset where
  images : List (Option (List ℕ))
  labels : List ℕ

/-- The mutable fields of a `RandomForestTrainer` instance. -/
structure RFTrainerState where
  model : Option ForestModel
  isTrained : Bool
  features : List (List ℚ)
  labels : List ℕ
  numTrees : ℕ
  classNames : List String

/-- The `RandomForestTrainer` constructor: no model, untrained, 50 trees. -/
def RFTrainerState.init : RFTrainerState :=
  { model := none, isTrained := false, features := [], labels := [],
    numTrees := 50, classNames := [] }

/-- `RandomForestTrainer.train(dataset, onProgress)`: reject an empty image
list with `Error('No training data available')`; otherwise extract features,
store them, grow the forest and mark the trainer trained.  A crash inside
`trainRandomForest` (the empty-labels `reduce` `TypeError`) is rethrown after
`this.features` / `this.labels` / `this.classNames` were already assigned. -/
def RFtrain (g : ℕ → ℕ) (log2 : ℚ → ℚ) (fuel : ℕ) (s : RFTrainerState)
    (d : RFDataset) (pos : ℕ) : Except String (ℚ × ℕ) × RFTrainerState × ℕ :=
  if d.images.length = 0 then (.error "No training data available", s, pos)
  else
    let numClasses := d.labels.foldr max 0 + 1
    let classNames := (List.range numClasses).map (fun i => "Class " ++ toString i)
    let feats := extractFeatures d.images
    match trainRandomForest g log2 fuel s.numTrees feats d.labels pos with
    | (none, pos) =>
        (.error "Reduce of empty array with no initial value",
         { s with classNames := classNames, features := feats, labels := d.labels }, pos)
    | (some m, pos) =>
        (.ok (m.accuracy, s.numTrees),
         { s with classNames := classNames, features := feats, labels := d.labels,
                  model := some m, isTrained := true }, pos)

/-! ## Prediction aggregator (`Predictor`) -/

/-- One registered backend as the aggregator observes it on a given query:
its `isTrained` flag, the outcome of awaiting its `predict` (`.ok none`
models a resolved value that is not an array), and the wall-clock time the
external `performance.now()` pair would measure. -/
structure PBackend where
  isTrained : Bool
  predictOutcome : Except String (Option (List ℚ))
  inferenceTime : ℚ

/-- A per-backend record of the aggregated result. -/
structure PredRecord where
  predictions : List (String × ℚ)
  inferenceTime : ℚ
  error : Option String
deriving DecidableEq

/-- `Predictor.formatPredictions(probabilities, classNames)`: dummy entry on a
non-array input; otherwise pair each probability with
`classNames[index] || 'Class <index>'` (an empty class name is falsy and also
falls back), sort descending by probability (JavaScript's stable sort) and
keep the top 5. -/
def formatPredictions (probabilities : Option (List ℚ)) (classNames : List String) :
    List (String × ℚ) :=
  match probabilities with
  | none => [("Invalid prediction", 0)]
  | some probs =>
      ((probs.enum.map (fun p =>
          (let n := classNames.getD p.1 ""
           if n = "" then "Class " ++ toString p.1 else n, p.2))).mergeSort
        (fun a b => b.2 ≤ a.2)).take 5

/-- The per-backend body of `Predictor.predictImage`'s loop over
`Object.entries(this.modelManager.models)`: untrained (or absent) backends get
the stub record, a failing `predict` is caught into an error record, a
successful one is formatted and timed. -/
def backendRecord (classNames : List String) (m : Option PBackend) : PredRecord :=
  match m with
  | some b =>
      if b.isTrained then
        match b.predictOutcome with
        | .ok probs =>
            { predictions := formatPredictions probs classNames,
              inferenceTime := b.inferenceTime, error := none }
        | .error e =>
            { predictions := [("Prediction Error", 0)], inferenceTime := 0,
              error := some e }
      else { predictions := [("Model not trained", 0)], inferenceTime := 0, error := none }
  | none => { predictions := [("Model not trained", 0)], inferenceTime := 0, error := none }

/-- The full backend loop: one record per registered backend kind, in
enumeration order. -/
def predictImageRecords (classNames : List String)
    (models : List (String × Option PBackend)) : List (String × PredRecord) :=
  models.map (fun km => (km.1, backendRecord classNames km.2))

/-- The mutable state of a `Predictor` instance: its single-flight flag. -/
structure PredictorState where
  isPredicting : Bool
deriving DecidableEq

/-- `Predictor.predictImage(imageDataUrl)`: reject re-entrant calls while
`isPredicting`; otherwise set the flag, validate the input
(`!imageDataUrl || typeof imageDataUrl !== 'string'` — `none` models a
non-string value, and the empty string is falsy), run the backend loop, and
clear the flag in `finally` whether the body returned or threw. -/
def predictImage (s : PredictorState) (classNames : List String)
    (models : List (String × Option PBackend)) (imageDataUrl : Option String) :
    Except String (List (String × PredRecord)) × PredictorState :=
  if s.isPredicting then (.error "Prediction already in progress", s)
  else
    match imageDataUrl with
    | none => (.error "Invalid image data URL", { isPredicting := false })
    | some u =>
        if u = "" then (.error "Invalid image data URL", { isPredicting := false })
        else (.ok (predictImageRecords classNames models), { isPredicting := false })

/-! ## Model registry (`ModelManager`) -/

/-- The fixed, closed enumeration of backend kinds. -/
inductive ModelType where
  | logisticRegression
  | randomForest
  | cnn
deriving DecidableEq

/-- A model held in a registry slot, as the registry observes it: its
`isTrained` flag and the descriptor its `saveModel()` returns (an opaque
payload; `saveModel` assigns the `id` afterwards). -/
structure MMModel where
  isTrained : Bool
  saveInfo : String
deriving DecidableEq

/-- One entry of the `savedModels` ledger: the descriptor with its assigned
`id`. -/
structure SavedEntry where
  id : ℕ
  info : String
deriving DecidableEq

/-- The mutable fields of a `ModelManager` instance. -/
structure ModelManagerState where
  models : ModelType → Option MMModel
  evaluationResults : ModelType → Option String
  savedModels : List SavedEntry
  isTraining : Bool

/-- The `ModelManager` constructor: empty slots, no evaluation results, empty
ledger, not training. -/
def ModelManagerState.init : ModelManagerState :=
  { models := fun _ => none, evaluationResults := fun _ => none,
    savedModels := [], isTraining := false }

/-- `ModelManager.isModelTrained(type)`. -/
def isModelTrained (s : ModelManagerState) (t : ModelType) : Bool :=
  match s.models t with
  | some m => m.isTrained
  | none => false

/-- The state-mutating `ModelManager` operations.  The kind argument is the
closed `ModelType` enumeration, so the `Invalid model type` validation
rejection is unrepresentable here; `saveModel` on an untrained slot throws
before touching any state, so it appears as the identity. -/
inductive MMOp where
  | setModel (t : ModelType) (m : Option MMModel)
  | saveModel (t : ModelType)
  | setEvaluationResults (t : ModelType) (r : String)
  | setTrainingStatus (b : Bool)
  | reset

/-- One `ModelManager` operation as a state transition (`dispose` calls on
replaced or reset models are external effects with no registry state). -/
def MMStep (s : ModelManagerState) : MMOp → ModelManagerState
  | .setModel t m => { s with models := fun x => if x = t then m else s.models x }
  | .saveModel t =>
      match s.models t with
      | some m =>
          if m.isTrained then
            { s with savedModels :=
                s.savedModels ++ [{ id := s.savedModels.length, info := m.saveInfo }] }
          else s
      | none => s
  | .setEvaluationResults t r =>
      { s with evaluationResults := fun x => if x = t then some r else s.evaluationResults x }
  | .setTrainingStatus b => { s with isTraining := b }
  | .reset =>
      { s with models := fun _ => none, evaluationResults := fun _ => none,
               isTraining := false }

/-- The values stored at the leaves of a tree (every `traverseTree` result is
one of them). -/
def leafValues : Tree → List ℕ
  | .leaf v _ _ => [v]
  | .node _ _ l r => leafValues l ++ leafValues r

/-! ## Helper lemmas -/

lemma histStep_lengths (data : List ℕ) (h : List ℕ × List ℕ × List ℕ) (k : ℕ) :
    ((histStep data h k).1.length = h.1.length ∧
     (histStep data h k).2.1.length = h.2.1.length ∧
     (histStep data h k).2.2.length = h.2.2.length) := by
  simp [histStep]

lemma histTriple_lengths (data : List ℕ) :
    (histTriple data).1.length = 4 ∧ (histTriple data).2.1.length = 4 ∧
      (histTriple data).2.2.length = 4 := by
  unfold histTriple
  suffices H : ∀ (l : List ℕ) (h : List ℕ × List ℕ × List ℕ),
      h.1.length = 4 → h.2.1.length = 4 → h.2.2.length = 4 →
      ((l.foldl (histStep data) h).1.length = 4 ∧
       (l.foldl (histStep data) h).2.1.length = 4 ∧
       (l.foldl (histStep data) h).2.2.length = 4) by
    exact H _ _ (by simp) (by simp) (by simp)
  intro l
  induction l with
  | nil => intro h h1 h2 h3; exact ⟨h1, h2, h3⟩
  | cons x xs ih =>
      intro h h1 h2 h3
      simp only [List.foldl_cons]
      exact ih _ ((histStep_lengths data h x).1.trans h1)
        ((histStep_lengths data h x).2.1.trans h2)
        ((histStep_lengths data h x).2.2.trans h3)

lemma computeImageFeatures_length (data : List ℕ) :
    (computeImageFeatures data).length = 15 := by
  obtain ⟨h1, h2, h3⟩ := histTriple_lengths data
  simp only [computeImageFeatures, List.length_append, List.length_map,
    List.length_cons, List.length_nil, h1, h2, h3]

/-! ## C1: the confusion-matrix scenario -/

lemma scenario_accuracy : (calculateMetrics [[5, 0], [1, 4]]).accuracy = 9 / 11 := by
  have h1 : ((List.range 2).map (fun i => truePos [[5, 0], [1, 4]] i)).sum = 9 := by decide
  have h2 : ((List.range 2).map (fun i => truePos [[5, 0], [1, 4]] i +
      falsePosA [[5, 0], [1, 4]] i + falseNegA [[5, 0], [1, 4]] i)).sum = 11 := by decide
  simp only [calculateMetrics, List.length_cons, List.length_nil]
  rw [h1, h2]
  norm_num

lemma scenario_precision : (calculateMetrics [[5, 0], [1, 4]]).precision.getD 0 0 = 5 / 6 := by
  have hr : List.range 2 = [0, 1] := by decide
  have htp : truePos [[5, 0], [1, 4]] 0 = 5 := by decide
  have hfp : falsePosA [[5, 0], [1, 4]] 0 = 1 := by decide
  simp only [calculateMetrics, List.length_cons, List.length_nil, hr, List.map_cons,
    List.getD_cons_zero, classPrecision, htp, hfp]
  norm_num

lemma scenario_recall : (calculateMetrics [[5, 0], [1, 4]]).recallScore.getD 0 0 = 1 := by
  have hr : List.range 2 = [0, 1] := by decide
  have htp : truePos [[5, 0], [1, 4]] 0 = 5 := by decide
  have hfn : falseNegA [[5, 0], [1, 4]] 0 = 0 := by decide
  simp only [calculateMetrics, List.length_cons, List.length_nil, hr, List.map_cons,
    List.getD_cons_zero, classRecall, htp, hfn]
  norm_num

/-- C1 counterexample: on `[[5,0],[1,4]]` the code's global accuracy is
`9/11`, not `9/10`, so the claim as stated is false at this input (class-0
precision and recall do match). -/
theorem calculateMetrics_scenario_counterexample :
    ¬((calculateMetrics [[5, 0], [1, 4]]).accuracy = 9 / 10 ∧
      (calculateMetrics [[5, 0], [1, 4]]).precision.getD 0 0 = 5 / 6 ∧
      (calculateMetrics [[5, 0], [1, 4]]).recallScore.getD 0 0 = 1) := by
  intro h
  rw [scenario_accuracy] at h
  have := h.1
  norm_num at this

/-- C1 amended: for the confusion matrix `[[5,0],[1,4]]`, `calculateMetrics`
returns global accuracy `9/11` (the denominator `Σ(TP+FP+FN)` counts the one
misclassification twice), class-0 precision `5/6` and class-0 recall `1`. -/
theorem calculateMetrics_scenario :
    (calculateMetrics [[5, 0], [1, 4]]).accuracy = 9 / 11 ∧
    (calculateMetrics [[5, 0], [1, 4]]).precision.getD 0 0 = 5 / 6 ∧
    (calculateMetrics [[5, 0], [1, 4]]).recallScore.getD 0 0 = 1 :=
  ⟨scenario_accuracy, scenario_precision, scenario_recall⟩

/-! ## C5: the zero-vector fallback length -/

/-- C5: `computeImageFeatures` always produces 15 features (3 channels × 4
histogram bins + 3 channel means), while the per-sample failure fallback in
`extractFeatures` pushes `new Array(24).fill(0)` — a vector of a *different*
length, so a batch with one failed sample does not have one constant vector
length. -/
theorem extractFeatures_fallback_length_mismatch :
    (∀ data : List ℕ, (computeImageFeatures data).length = 15) ∧
    extractFeatures [none] = [List.replicate 24 (0 : ℚ)] ∧ (24 : ℕ) ≠ 15 := by
  refine ⟨computeImageFeatures_length, rfl, by decide⟩

/-! ## C6: decision-tree induction on an empty sample list -/

set_option maxHeartbeats 1000000 in
/-- C6: `trainDecisionTree` on an empty sample list does *not* return a leaf:
`createLeafNode([])` evaluates `Object.keys({}).reduce(...)` with no initial
value, which throws (modelled as `none`) — for every depth, random stream and
entropy function.  The second conjunct shows the branch is reachable from a
legitimate non-empty dataset: with this random stream the chosen threshold is
the maximum observed feature value, the right partition is empty, and the
whole induction fails. -/
theorem trainDecisionTree_empty_samples_crash :
    (∀ (g : ℕ → ℕ) (log2 : ℚ → ℚ) (fuel depth pos : ℕ),
      trainDecisionTreeAt g log2 fuel [] [] depth 10 pos = (none, pos)) ∧
    (trainDT (fun _ => 1) (fun _ => 0) 2 1 [[0], [1]] [0, 1] 0).1 = none := by
  constructor
  · intro g log2 fuel depth pos
    unfold trainDecisionTreeAt
    cases h : 10 - depth with
    | zero => simp [trainDT, createLeafNode, objKeys, reduceMax]
    | succ n => simp [trainDT, createLeafNode, objKeys, reduceMax]
  · norm_num [trainDT, trainDTSplit, createLeafNode, objKeys, reduceMax, findBestSplit,
      findBestSplitLoop, tryThresholds, calculateInformationGain, calculateEntropy,
      featLE, dedupFirst, dedupFirstAux, randIdx, List.range_succ]

/-! ## C7: the single-flight guard of `Predictor.predictImage` -/

/-- C7: a `predictImage` call fails with the in-progress `StateError` message
exactly when the instance's single-flight flag is set by a still-running call;
an accepted call leaves the flag cleared whether its body succeeded or threw,
so the next call is accepted. -/
theorem predictImage_single_flight (s : PredictorState) (classNames : List String)
    (models : List (String × Option PBackend)) (url : Option String) :
    ((predictImage s classNames models url).1 = .error "Prediction already in progress" ↔
      s.isPredicting = true) ∧
    (s.isPredicting = false →
      (predictImage s classNames models url).2.isPredicting = false) := by
  obtain ⟨p⟩ := s
  cases p with
  | true => simp [predictImage]
  | false =>
      simp only [predictImage, if_neg (by simp : ¬(false = true))]
      cases url with
      | none => simp
      | some u =>
          by_cases hu : u = "" <;> simp [hu]

/-- C7 witness: the single-flight property at a concrete idle instance. -/
theorem predictImage_single_flight_witness :
    ((predictImage ⟨false⟩ [] [] none).1 = .error "Prediction already in progress" ↔
      (⟨false⟩ : PredictorState).isPredicting = true) ∧
    ((⟨false⟩ : PredictorState).isPredicting = false →
      (predictImage ⟨false⟩ [] [] none).2.isPredicting = false) :=
  predictImage_single_flight ⟨false⟩ [] [] none

/-! ## C8: training on an empty dataset -/

/-- C8: `RandomForestTrainer.train` on a dataset with no images fails with
`'No training data available'`, leaves the trainer state untouched, and a
fresh trainer remains untrained with no model. -/
theorem train_empty_dataset_fails (g : ℕ → ℕ) (log2 : ℚ → ℚ) (fuel : ℕ)
    (s : RFTrainerState) (labels : List ℕ) (pos : ℕ) :
    RFtrain g log2 fuel s ⟨[], labels⟩ pos =
      (.error "No training data available", s, pos) ∧
    (RFtrain g log2 fuel RFTrainerState.init ⟨[], labels⟩ pos).2.1.isTrained = false ∧
    (RFtrain g log2 fuel RFTrainerState.init ⟨[], labels⟩ pos).2.1.model = none := by
  exact ⟨rfl, rfl, rfl⟩

/-! ## C4 (counterexample part): vote ties -/

/-- C4 counterexample: with one tree voting class 0 and one voting class 1 the
vote counts tie, and `predictInstance` returns class `1` — the *highest* tied
index, not the lowest: in `keys.reduce((a,b) => votes[a] > votes[b] ? a : b)`
a tie hands the accumulator to the later (numerically larger) key. -/
theorem predictInstance_tie_counterexample :
    ([Tree.leaf 0 1 none, Tree.leaf 1 1 none].map (traverseTree [])).count 0 = 1 ∧
    ([Tree.leaf 0 1 none, Tree.leaf 1 1 none].map (traverseTree [])).count 1 = 1 ∧
    predictInstance [] [Tree.leaf 0 1 none, Tree.leaf 1 1 none] = some 1 ∧
    (1 : ℕ) ≠ 0 := by
  decide

/-! ## C10: the model registry's reset frame and append-only ledger -/

lemma mmStep_ledger_ids (s : ModelManagerState) (op : MMOp)
    (h : s.savedModels.map SavedEntry.id = List.range s.savedModels.length) :
    (MMStep s op).savedModels.map SavedEntry.id =
      List.range (MMStep s op).savedModels.length := by
  cases op with
  | saveModel t =>
      simp only [MMStep]
      cases hm : s.models t with
      | none => exact h
      | some m =>
          cases hT : m.isTrained with
          | false => simpa [hT] using h
          | true => simp [hT, h, List.range_succ]
  | setModel t m => exact h
  | setEvaluationResults t r => exact h
  | setTrainingStatus b => exact h
  | reset => exact h

lemma mmRun_ledger_ids (ops : List MMOp) :
    ∀ s : ModelManagerState,
      s.savedModels.map SavedEntry.id = List.range s.savedModels.length →
      (ops.foldl MMStep s).savedModels.map SavedEntry.id =
        List.range (ops.foldl MMStep s).savedModels.length := by
  induction ops with
  | nil => intro s h; exact h
  | cons op ops ih =>
      intro s h
      exact ih _ (mmStep_ledger_ids s op h)

/-- C10: `reset` empties the model slots, the evaluation results and the
training flag but leaves the `savedModels` ledger untouched; every operation
only ever appends to the ledger (the old ledger is a prefix of the new one);
and along any operation sequence from a fresh manager the ledger ids are
exactly `0, 1, 2, ...` in insertion order. -/
theorem modelManager_reset_frame_and_append_only_ledger :
    (∀ s : ModelManagerState,
      (MMStep s .reset).models = (fun _ => none) ∧
      (MMStep s .reset).evaluationResults = (fun _ => none) ∧
      (MMStep s .reset).isTraining = false ∧
      (MMStep s .reset).savedModels = s.savedModels) ∧
    (∀ (s : ModelManagerState) (op : MMOp),
      s.savedModels <+: (MMStep s op).savedModels) ∧
    (∀ ops : List MMOp,
      (ops.foldl MMStep ModelManagerState.init).savedModels.map SavedEntry.id =
        List.range (ops.foldl MMStep ModelManagerState.init).savedModels.length) := by
  refine ⟨fun s => ⟨rfl, rfl, rfl, rfl⟩, ?_, ?_⟩
  · intro s op
    cases op with
    | saveModel t =>
        simp only [MMStep]
        cases hm : s.models t with
        | none => simp
        | some m =>
            cases hT : m.isTrained with
            | false => simp [hT]
            | true => simp [hT]
    | setModel t m => exact List.prefix_refl _
    | setEvaluationResults t r => exact List.prefix_refl _
    | setTrainingStatus b => exact List.prefix_refl _
    | reset => exact List.prefix_refl _
  · intro ops
    exact mmRun_ledger_ids ops ModelManagerState.init rfl

/-! ## C2: the global-accuracy formula -/

lemma foldl_add_ite_eq (f : ℕ → ℕ) (i : ℕ) :
    ∀ (l : List ℕ) (a : ℕ),
      l.foldl (fun acc j => if i ≠ j then acc + f j else acc) a =
        a + (l.map (fun j => if i ≠ j then f j else 0)).sum := by
  intro l
  induction l with
  | nil => intro a; simp
  | cons x xs ih =>
      intro a
      by_cases hx : i ≠ x
      · simp only [List.foldl_cons, if_pos hx, List.map_cons, List.sum_cons, ih]
        omega
      · simp only [List.foldl_cons, if_neg hx, List.map_cons, List.sum_cons, ih]
        omega

lemma sum_map_range_eq (f : ℕ → ℕ) (n : ℕ) :
    ((List.range n).map f).sum = ∑ i ∈ Finset.range n, f i := by
  induction n with
  | zero => simp
  | succ n ih => rw [List.range_succ]; simp [ih, Finset.sum_range_succ]

lemma falsePosA_eq_spec (m : List (List ℕ)) (i : ℕ) :
    falsePosA m i = ∑ j ∈ (Finset.range m.length).erase i, mEntry m j i := by
  rw [falsePosA, foldl_add_ite_eq, Nat.zero_add, sum_map_range_eq,
    ← Finset.sum_filter, Finset.filter_ne]

lemma falseNegA_eq_spec (m : List (List ℕ)) (i : ℕ) :
    falseNegA m i = ∑ j ∈ (Finset.range m.length).erase i, mEntry m i j := by
  rw [falseNegA, foldl_add_ite_eq, Nat.zero_add, sum_map_range_eq,
    ← Finset.sum_filter, Finset.filter_ne]

/-- C2: for every square confusion matrix of non-negative integers, the global
accuracy computed by `calculateMetrics` equals the spec's formula
`ΣTP / Σ(TP+FP+FN)` (with `0` on a zero denominator). -/
theorem calculateMetrics_accuracy_eq_spec (m : List (List ℕ)) (_hm : IsSquare m) :
    (calculateMetrics m).accuracy = specGlobalAccuracy m := by
  clear _hm
  have hcorrect : ((List.range m.length).map (fun i => truePos m i)).sum =
      ∑ i ∈ Finset.range m.length, mEntry m i i := by
    rw [sum_map_range_eq]
    exact Finset.sum_congr rfl (fun i _ => rfl)
  have htotal : ((List.range m.length).map
      (fun i => truePos m i + falsePosA m i + falseNegA m i)).sum =
      ∑ i ∈ Finset.range m.length,
        (mEntry m i i + (∑ j ∈ (Finset.range m.length).erase i, mEntry m j i) +
          (∑ j ∈ (Finset.range m.length).erase i, mEntry m i j)) := by
    rw [sum_map_range_eq]
    exact Finset.sum_congr rfl
      (fun i _ => by rw [falsePosA_eq_spec, falseNegA_eq_spec]; rfl)
  simp only [calculateMetrics, specGlobalAccuracy, hcorrect, htotal]
  by_cases hz : (∑ i ∈ Finset.range m.length,
      (mEntry m i i + (∑ j ∈ (Finset.range m.length).erase i, mEntry m j i) +
        (∑ j ∈ (Finset.range m.length).erase i, mEntry m i j))) = 0
  · simp [hz]
  · simp [hz, Nat.pos_of_ne_zero hz]

/-- C2 witness: the formula agreement evaluated on the concrete square matrix
`[[5,0],[1,4]]`. -/
theorem calculateMetrics_accuracy_eq_spec_witness :
    IsSquare [[5, 0], [1, 4]] ∧
    (calculateMetrics [[5, 0], [1, 4]]).accuracy = specGlobalAccuracy [[5, 0], [1, 4]] :=
  ⟨by decide, calculateMetrics_accuracy_eq_spec [[5, 0], [1, 4]] (by decide)⟩

/-! ## C4 (amended part): the ensemble argmax -/

lemma foldl_pick_mem (f : ℕ → ℕ) :
    ∀ (ks : List ℕ) (k : ℕ),
      ks.foldl (fun a b => if f a > f b then a else b) k ∈ k :: ks := by
  intro ks
  induction ks with
  | nil => intro k; simp
  | cons b bs ih =>
      intro k
      simp only [List.foldl_cons]
      by_cases h : f k > f b
      · rw [if_pos h]
        rcases List.mem_cons.1 (ih k) with h1 | h2
        · rw [h1]; exact List.mem_cons_self _ _
        · exact List.mem_cons_of_mem _ (List.mem_cons_of_mem _ h2)
      · rw [if_neg h]
        rcases List.mem_cons.1 (ih b) with h1 | h2
        · rw [h1]; exact List.mem_cons_of_mem _ (List.mem_cons_self _ _)
        · exact List.mem_cons_of_mem _ (List.mem_cons_of_mem _ h2)

lemma foldl_pick_max (f : ℕ → ℕ) :
    ∀ (ks : List ℕ) (k : ℕ) (x : ℕ), x ∈ k :: ks →
      f x ≤ f (ks.foldl (fun a b => if f a > f b then a else b) k) := by
  intro ks
  induction ks with
  | nil =>
      intro k x hx
      rcases List.mem_cons.1 hx with h | h
      · exact h ▸ le_refl _
      · simp at h
  | cons b bs ih =>
      intro k x hx
      simp only [List.foldl_cons]
      by_cases h : f k > f b
      · rw [if_pos h]
        rcases List.mem_cons.1 hx with h1 | h1
        · exact h1 ▸ ih k k (List.mem_cons_self _ _)
        · rcases List.mem_cons.1 h1 with h2 | h2
          · exact h2 ▸ le_trans (le_of_lt h) (ih k k (List.mem_cons_self _ _))
          · exact ih k x (List.mem_cons_of_mem _ h2)
      · rw [if_neg h]
        rcases List.mem_cons.1 hx with h1 | h1
        · exact h1 ▸ le_trans (le_of_not_lt h) (ih b b (List.mem_cons_self _ _))
        · rcases List.mem_cons.1 h1 with h2 | h2
          · exact h2 ▸ ih b b (List.mem_cons_self _ _)
          · exact ih b x (List.mem_cons_of_mem _ h2)

lemma pairwise_cons_of_cons_cons {k b : ℕ} {bs : List ℕ}
    (h : List.Pairwise (· < ·) (k :: b :: bs)) :
    List.Pairwise (· < ·) (k :: bs) := by
  rcases List.pairwise_cons.1 h with ⟨hk, htail⟩
  rcases List.pairwise_cons.1 htail with ⟨_, hbs⟩
  exact List.pairwise_cons.2
    ⟨fun x hx => hk x (List.mem_cons_of_mem _ hx), hbs⟩

lemma foldl_pick_tie_le (f : ℕ → ℕ) :
    ∀ (ks : List ℕ) (k : ℕ), List.Pairwise (· < ·) (k :: ks) →
      ∀ x ∈ k :: ks,
        f x = f (ks.foldl (fun a b => if f a > f b then a else b) k) →
        x ≤ ks.foldl (fun a b => if f a > f b then a else b) k := by
  intro ks
  induction ks with
  | nil =>
      intro k _ x hx _
      rcases List.mem_cons.1 hx with h | h
      · exact h ▸ le_refl _
      · simp at h
  | cons b bs ih =>
      intro k hsort x hx hfx
      simp only [List.foldl_cons] at hfx ⊢
      by_cases h : f k > f b
      · rw [if_pos h] at hfx ⊢
        have hsort' := pairwise_cons_of_cons_cons hsort
        rcases List.mem_cons.1 hx with h1 | h1
        · exact h1 ▸ ih k hsort' k (List.mem_cons_self _ _) (h1 ▸ hfx)
        · rcases List.mem_cons.1 h1 with h2 | h2
          · exfalso
            subst h2
            have hb_lt : f x < f (bs.foldl (fun a b => if f a > f b then a else b) k) :=
              lt_of_lt_of_le h (foldl_pick_max f bs k k (List.mem_cons_self _ _))
            rw [hfx] at hb_lt
            exact lt_irrefl _ hb_lt
          · exact ih k hsort' x (List.mem_cons_of_mem _ h2) hfx
      · rw [if_neg h] at hfx ⊢
        have hsort' : List.Pairwise (· < ·) (b :: bs) :=
          (List.pairwise_cons.1 hsort).2
        rcases List.mem_cons.1 hx with h1 | h1
        · subst h1
          have hmem := foldl_pick_mem f bs b
          have hlt : x < bs.foldl (fun a b => if f a > f b then a else b) b :=
            (List.pairwise_cons.1 hsort).1 _ hmem
          exact le_of_lt hlt
        · exact ih b hsort' x h1 hfx

lemma reduceMax_spec (f : ℕ → ℕ) (keys : List ℕ) (hne : keys ≠ [])
    (hsort : List.Pairwise (· < ·) keys) :
    ∃ c, reduceMax f keys = some c ∧ c ∈ keys ∧ (∀ x ∈ keys, f x ≤ f c) ∧
      (∀ x ∈ keys, f x = f c → x ≤ c) := by
  cases keys with
  | nil => exact absurd rfl hne
  | cons k ks =>
      exact ⟨_, rfl, foldl_pick_mem f ks k, foldl_pick_max f ks k,
        foldl_pick_tie_le f ks k hsort⟩

lemma reduceMax_mem {f : ℕ → ℕ} {keys : List ℕ} {c : ℕ}
    (h : reduceMax f keys = some c) : c ∈ keys := by
  cases keys with
  | nil => simp [reduceMax] at h
  | cons k ks =>
      simp only [reduceMax, Option.some.injEq] at h
      exact h ▸ foldl_pick_mem f ks k

lemma mem_le_foldr_max {x : ℕ} : ∀ {l : List ℕ}, x ∈ l → x ≤ l.foldr max 0 := by
  intro l
  induction l with
  | nil => intro h; simp at h
  | cons y ys ih =>
      intro h
      rcases List.mem_cons.1 h with h1 | h1
      · exact h1 ▸ le_max_left _ _
      · exact le_trans (ih h1) (le_max_right _ _)

lemma mem_objKeys_iff (labels : List ℕ) (x : ℕ) :
    x ∈ objKeys labels ↔ x ∈ labels := by
  constructor
  · intro h
    have := List.of_mem_filter h
    simpa using this
  · intro h
    refine List.mem_filter.2 ⟨?_, by simpa using h⟩
    exact List.mem_range.2 (Nat.lt_succ_of_le (mem_le_foldr_max h))

lemma objKeys_sorted (labels : List ℕ) : List.Pairwise (· < ·) (objKeys labels) :=
  (List.pairwise_lt_range _).filter _

lemma objKeys_ne_nil {labels : List ℕ} (h : labels ≠ []) : objKeys labels ≠ [] := by
  obtain ⟨x, hx⟩ := List.exists_mem_of_ne_nil labels h
  exact List.ne_nil_of_mem ((mem_objKeys_iff labels x).2 hx)

/-- C4 amended: on a non-empty tree list, `predictInstance` returns a class
with the maximum vote count; when several classes tie for the maximum it
returns the *highest* tied class index (the JavaScript `reduce` keeps the
later key on a tie, and vote keys enumerate in ascending order). -/
theorem predictInstance_argmax (features : List ℚ) (trees : List Tree)
    (h : trees ≠ []) :
    ∃ c, predictInstance features trees = some c ∧
      (∀ k, (trees.map (traverseTree features)).count k ≤
        (trees.map (traverseTree features)).count c) ∧
      (∀ k, (trees.map (traverseTree features)).count k =
        (trees.map (traverseTree features)).count c → k ≤ c) := by
  have hpne : trees.map (traverseTree features) ≠ [] := by
    simpa using h
  obtain ⟨c, hc, hmem, hmax, htie⟩ :=
    reduceMax_spec (fun k => (trees.map (traverseTree features)).count k)
      (objKeys (trees.map (traverseTree features)))
      (objKeys_ne_nil hpne) (objKeys_sorted _)
  refine ⟨c, hc, ?_, ?_⟩
  · intro k
    by_cases hk : k ∈ trees.map (traverseTree features)
    · exact hmax k ((mem_objKeys_iff _ _).2 hk)
    · rw [List.count_eq_zero.2 hk]
      exact Nat.zero_le _
  · intro k hkc
    by_cases hk : k ∈ trees.map (traverseTree features)
    · exact htie k ((mem_objKeys_iff _ _).2 hk) hkc
    · exfalso
      have hcpos : 0 < (trees.map (traverseTree features)).count c :=
        List.count_pos_iff.2 ((mem_objKeys_iff _ _).1 hmem)
      rw [List.count_eq_zero.2 hk] at hkc
      omega

/-- C4 witness: the amended argmax property at a concrete one-tree forest. -/
theorem predictInstance_argmax_witness :
    ([Tree.leaf 2 1 none] ≠ [] ∧
     ∃ c, predictInstance [] [Tree.leaf 2 1 none] = some c ∧
      (∀ k, ([Tree.leaf 2 1 none].map (traverseTree [])).count k ≤
        ([Tree.leaf 2 1 none].map (traverseTree [])).count c) ∧
      (∀ k, ([Tree.leaf 2 1 none].map (traverseTree [])).count k =
        ([Tree.leaf 2 1 none].map (traverseTree [])).count c → k ≤ c)) :=
  ⟨by decide, predictInstance_argmax [] [Tree.leaf 2 1 none] (by decide)⟩

/-! ## C3: the probability vector of a trained forest -/

lemma mem_of_mem_dedupFirstAux [DecidableEq α] :
    ∀ {l seen : List α} {x : α}, x ∈ dedupFirstAux seen l → x ∈ l := by
  intro l
  induction l with
  | nil => intro seen x h; simp [dedupFirstAux] at h
  | cons y ys ih =>
      intro seen x h
      simp only [dedupFirstAux] at h
      by_cases hc : seen.contains y
      · rw [if_pos hc] at h
        exact List.mem_cons_of_mem _ (ih h)
      · rw [if_neg hc] at h
        rcases List.mem_cons.1 h with h1 | h1
        · exact h1 ▸ List.mem_cons_self _ _
        · exact List.mem_cons_of_mem _ (ih h1)

lemma createLeafNode_some_mem {labels : List ℕ} {t : Tree}
    (h : createLeafNode labels = some t) : ∀ v ∈ leafValues t, v ∈ labels := by
  unfold createLeafNode at h
  cases hr : reduceMax (fun l => labels.count l) (objKeys labels) with
  | none => rw [hr] at h; simp at h
  | some mj =>
      rw [hr] at h
      simp only [Option.some.injEq] at h
      intro v hv
      rw [← h] at hv
      simp only [leafValues, List.mem_singleton] at hv
      exact hv ▸ (mem_objKeys_iff labels mj).1 (reduceMax_mem hr)

lemma mem_map_snd_filter_zip {features : List (List ℚ)} {labels : List ℕ}
    {q : List ℚ × ℕ → Bool} {v : ℕ}
    (h : v ∈ ((features.zip labels).filter q).map (fun p => p.2)) : v ∈ labels := by
  rcases List.mem_map.1 h with ⟨p, hp, rfl⟩
  exact (List.of_mem_zip (List.mem_of_mem_filter hp)).2

lemma trainDTSplit_leafValues {recur : List (List ℚ) → List ℕ → ℕ → Option Tree × ℕ}
    {g : ℕ → ℕ} {log2 : ℚ → ℚ} {fuel : ℕ} {features : List (List ℚ)}
    {labels : List ℕ} {pos pos2 : ℕ} {t : Tree}
    (hrec : ∀ lf ll p p2 t2, recur lf ll p = (some t2, p2) →
      ∀ v ∈ leafValues t2, v ∈ ll)
    (h : trainDTSplit recur g log2 fuel features labels pos = (some t, pos2)) :
    ∀ v ∈ leafValues t, v ∈ labels := by
  unfold trainDTSplit at h
  split at h
  · simp only [Prod.mk.injEq] at h
    exact createLeafNode_some_mem h.1
  · split at h
    · simp at h
    · rename_i lt posL hL
      split at h
      · simp at h
      · rename_i rt posR hR
        simp only [Prod.mk.injEq, Option.some.injEq] at h
        intro v hv
        rw [← h.1] at hv
        simp only [leafValues] at hv
        rcases List.mem_append.1 hv with hv1 | hv1
        · exact mem_map_snd_filter_zip (hrec _ _ _ _ _ hL v hv1)
        · exact mem_map_snd_filter_zip (hrec _ _ _ _ _ hR v hv1)

lemma trainDT_leafValues (g : ℕ → ℕ) (log2 : ℚ → ℚ) (fuel : ℕ) :
    ∀ (remaining : ℕ) (features : List (List ℚ)) (labels : List ℕ)
      (pos pos2 : ℕ) (t : Tree),
      trainDT g log2 fuel remaining features labels pos = (some t, pos2) →
      ∀ v ∈ leafValues t, v ∈ labels := by
  intro remaining
  induction remaining with
  | zero =>
      intro features labels pos pos2 t h
      simp only [trainDT, Prod.mk.injEq] at h
      exact createLeafNode_some_mem h.1
  | succ n ih =>
      intro features labels pos pos2 t h
      simp only [trainDT] at h
      by_cases hf : features.length = 0
      · rw [if_pos hf] at h
        simp only [Prod.mk.injEq] at h
        exact createLeafNode_some_mem h.1
      · rw [if_neg hf] at h
        rcases hd : dedupFirst labels with _ | ⟨l, rest⟩
        · rw [hd] at h
          exact trainDTSplit_leafValues (fun lf ll p p2 t2 => ih lf ll p p2 t2) h
        · cases rest with
          | nil =>
              rw [hd] at h
              simp only [Prod.mk.injEq, Option.some.injEq] at h
              intro v hv
              rw [← h.1] at hv
              simp only [leafValues, List.mem_singleton] at hv
              have hl : l ∈ dedupFirst labels := by rw [hd]; exact List.mem_singleton_self l
              exact hv ▸ mem_of_mem_dedupFirstAux hl
          | cons l2 rest2 =>
              rw [hd] at h
              exact trainDTSplit_leafValues (fun lf ll p p2 t2 => ih lf ll p p2 t2) h

lemma getD_le_foldr_max (l : List ℕ) : ∀ i : ℕ, l.getD i 0 ≤ l.foldr max 0 := by
  induction l with
  | nil => intro i; simp
  | cons y ys ih =>
      intro i
      cases i with
      | zero => exact le_max_left _ _
      | succ j =>
          simp only [List.getD_cons_succ, List.foldr_cons]
          exact le_trans (ih j) (le_max_right _ _)

lemma foldl_invariant {α β : Type} (P : β → Prop) (f : β → α → β)
    (hstep : ∀ b a, P b → P (f b a)) :
    ∀ (l : List α) (b : β), P b → P (l.foldl f b) := by
  intro l
  induction l with
  | nil => intro b hb; exact hb
  | cons x xs ih => intro b hb; exact ih _ (hstep b x hb)

lemma bootstrapSample_labels_le (g : ℕ → ℕ) (features : List (List ℚ))
    (labels : List ℕ) (pos : ℕ) :
    ∀ x ∈ (bootstrapSample g features labels pos).2.1, x ≤ labels.foldr max 0 := by
  unfold bootstrapSample
  apply foldl_invariant (P := fun acc : List (List ℚ) × List ℕ × ℕ =>
    ∀ x ∈ acc.2.1, x ≤ labels.foldr max 0)
  · intro b a hb x hx
    simp only at hx
    rcases List.mem_append.1 hx with h1 | h1
    · exact hb x h1
    · rw [List.mem_singleton.1 h1]
      exact getD_le_foldr_max labels _
  · intro x hx
    simp at hx

lemma trainForestTrees_spec (g : ℕ → ℕ) (log2 : ℚ → ℚ) (fuel : ℕ) :
    ∀ (n : ℕ) (features : List (List ℚ)) (labels : List ℕ) (pos pos2 : ℕ)
      (ts : List Tree),
      trainForestTrees g log2 fuel n features labels pos = (some ts, pos2) →
      ts.length = n ∧ ∀ t ∈ ts, ∀ v ∈ leafValues t, v ≤ labels.foldr max 0 := by
  intro n
  induction n with
  | zero =>
      intro features labels pos pos2 ts h
      simp only [trainForestTrees, Prod.mk.injEq, Option.some.injEq] at h
      rw [← h.1]
      exact ⟨rfl, by simp⟩
  | succ nn ih =>
      intro features labels pos pos2 ts h
      simp only [trainForestTrees] at h
      split at h
      · simp at h
      · rename_i t0 posT hDT
        split at h
        · simp at h
        · rename_i ts0 posTs hTs
          simp only [Prod.mk.injEq, Option.some.injEq] at h
          rw [← h.1]
          obtain ⟨hlen0, hmem0⟩ := ih features labels posT posTs ts0 hTs
          refine ⟨by simp [hlen0], ?_⟩
          intro t ht v hv
          rcases List.mem_cons.1 ht with h1 | h1
          · exact bootstrapSample_labels_le g features labels pos v
              (trainDT_leafValues g log2 fuel 10 _ _ _ _ _ (h1 ▸ hDT) v hv)
          · exact hmem0 t h1 v hv

lemma trainRandomForest_spec {g : ℕ → ℕ} {log2 : ℚ → ℚ}
    {fuel numTrees pos pos2 : ℕ} {features : List (List ℚ)} {labels : List ℕ}
    {m : ForestModel}
    (h : trainRandomForest g log2 fuel numTrees features labels pos = (some m, pos2)) :
    m.trees.length = numTrees ∧
      ∀ t ∈ m.trees, ∀ v ∈ leafValues t, v ≤ labels.foldr max 0 := by
  unfold trainRandomForest at h
  split at h
  · simp at h
  · rename_i ts posT hT
    simp only [Prod.mk.injEq, Option.some.injEq] at h
    rw [← h.1]
    exact trainForestTrees_spec g log2 fuel numTrees features labels pos posT ts hT

lemma traverseTree_mem_leafValues (x : List ℚ) :
    ∀ t : Tree, traverseTree x t ∈ leafValues t := by
  intro t
  induction t with
  | leaf v c d => simp [traverseTree, leafValues]
  | node fi th l r ihl ihr =>
      simp only [traverseTree, leafValues]
      cases hc : featLE x fi th with
      | true => simpa [hc] using List.mem_append_left _ ihl
      | false => simpa [hc] using List.mem_append_right _ ihr

lemma sum_map_add_nat (l : List ℕ) (f₁ f₂ : ℕ → ℕ) :
    (l.map (fun x => f₁ x + f₂ x)).sum = (l.map f₁).sum + (l.map f₂).sum := by
  induction l with
  | nil => simp
  | cons x xs ih =>
      simp only [List.map_cons, List.sum_cons, ih]
      omega

lemma sum_indicator_range (x n : ℕ) :
    ((List.range n).map (fun i => if x = i then 1 else 0)).sum =
      if x < n then 1 else 0 := by
  induction n with
  | zero => simp
  | succ n ih =>
      rw [List.range_succ, List.map_append, List.sum_append, ih]
      by_cases h1 : x < n
      · have h2 : x ≠ n := by omega
        have h3 : x < n + 1 := by omega
        simp [h1, h2, h3]
      · by_cases h2 : x = n
        · subst h2
          simp [h1, Nat.lt_succ_self]
        · have h3 : ¬ x < n + 1 := by omega
          simp [h1, h2, h3]

lemma sum_counts_eq_length (n : ℕ) :
    ∀ l : List ℕ, (∀ x ∈ l, x < n) →
      ((List.range n).map (fun i => l.count i)).sum = l.length := by
  intro l
  induction l with
  | nil => intro _; simp
  | cons y ys ih =>
      intro h
      have hy : y < n := h y (List.mem_cons_self _ _)
      have hcong : (List.range n).map (fun i => (y :: ys).count i) =
          (List.range n).map (fun i => ys.count i + if y = i then 1 else 0) := by
        refine List.map_congr_left (fun i _ => ?_)
        rw [List.count_cons]
        simp [beq_iff_eq]
      rw [hcong, sum_map_add_nat, ih (fun x hx => h x (List.mem_cons_of_mem _ hx)),
        sum_indicator_range, if_pos hy, List.length_cons]

lemma sum_map_cast_div (l : List ℕ) (f : ℕ → ℕ) (c : ℚ) :
    (l.map (fun i => (f i : ℚ) / c)).sum = ((l.map f).sum : ℚ) / c := by
  induction l with
  | nil => simp
  | cons x xs ih =>
      simp only [List.map_cons, List.sum_cons, ih, Nat.cast_add]
      rw [add_div]

lemma getD_map_range (f : ℕ → ℚ) (n i : ℕ) (h : i < n) :
    ((List.range n).map f).getD i 0 = f i := by
  simp [List.getD_eq_getElem?_getD, List.getElem?_map, List.getElem?_range h]

/-- C3: for a forest trained by `trainRandomForest` (any random stream, any
entropy function, a positive tree count), the prediction probability vector on
any feature vector has length `numClasses = max(training labels) + 1`, its
`i`-th entry is `votes_i / numTrees`, and its entries sum to exactly `1`
(hence to `1` within `1e-6`). -/
theorem trainedForest_predict_probability_vector (g : ℕ → ℕ) (log2 : ℚ → ℚ)
    (fuel numTrees pos pos2 : ℕ) (features : List (List ℚ)) (labels : List ℕ)
    (m : ForestModel) (x : List ℚ) (hn : 0 < numTrees)
    (htrain : trainRandomForest g log2 fuel numTrees features labels pos =
      (some m, pos2)) :
    m.trees ≠ [] ∧ m.trees.length = numTrees ∧
    (predictProbabilities m.trees labels x).length = labels.foldr max 0 + 1 ∧
    (∀ i < labels.foldr max 0 + 1,
      (predictProbabilities m.trees labels x).getD i 0 =
        ((m.trees.map (traverseTree x)).count i : ℚ) / (m.trees.length : ℚ)) ∧
    (predictProbabilities m.trees labels x).sum = 1 ∧
    |(predictProbabilities m.trees labels x).sum - 1| ≤ 1 / 1000000 := by
  obtain ⟨hlen, hleaf⟩ := trainRandomForest_spec htrain
  have hne : m.trees ≠ [] := by
    intro hnil
    rw [hnil] at hlen
    simp at hlen
    omega
  have hbound : ∀ p ∈ m.trees.map (traverseTree x), p < labels.foldr max 0 + 1 := by
    intro p hp
    rcases List.mem_map.1 hp with ⟨t, ht, rfl⟩
    exact Nat.lt_succ_of_le (hleaf t ht _ (traverseTree_mem_leafValues x t))
  have hTne : (m.trees.length : ℚ) ≠ 0 := by
    rw [hlen]
    exact_mod_cast Nat.pos_iff_ne_zero.1 hn
  have hsum : (predictProbabilities m.trees labels x).sum = 1 := by
    simp only [predictProbabilities]
    rw [sum_map_cast_div, sum_counts_eq_length _ _ hbound, List.length_map]
    exact div_self hTne
  refine ⟨hne, hlen, by simp [predictProbabilities], ?_, hsum, ?_⟩
  · intro i hi
    simp only [predictProbabilities]
    exact getD_map_range _ _ _ hi
  · rw [hsum, sub_self, abs_zero]
    norm_num

/-- C3 witness: a concrete one-tree forest trained on the one-sample dataset
`([[0]], [0])`, queried on the empty feature vector. -/
theorem trainedForest_predict_probability_vector_witness :
    0 < 1 ∧
    trainRandomForest (fun _ => 0) (fun _ => 0) 1 1 [[0]] [0] 0 =
      (some ⟨[Tree.leaf 0 1 none], calculateAccuracy [[0]] [0] [Tree.leaf 0 1 none]⟩, 1) ∧
    ((⟨[Tree.leaf 0 1 none],
        calculateAccuracy [[0]] [0] [Tree.leaf 0 1 none]⟩ : ForestModel).trees ≠ [] ∧
     (⟨[Tree.leaf 0 1 none],
        calculateAccuracy [[0]] [0] [Tree.leaf 0 1 none]⟩ : ForestModel).trees.length = 1 ∧
     (predictProbabilities [Tree.leaf 0 1 none] [0] []).length = [0].foldr max 0 + 1 ∧
     (∀ i < [0].foldr max 0 + 1,
       (predictProbabilities [Tree.leaf 0 1 none] [0] []).getD i 0 =
         (([Tree.leaf 0 1 none].map (traverseTree [])).count i : ℚ) /
           (([Tree.leaf 0 1 none] : List Tree).length : ℚ)) ∧
     (predictProbabilities [Tree.leaf 0 1 none] [0] []).sum = 1 ∧
     |(predictProbabilities [Tree.leaf 0 1 none] [0] []).sum - 1| ≤ 1 / 1000000) :=
  ⟨Nat.one_pos, rfl,
    trainedForest_predict_probability_vector (fun _ => 0) (fun _ => 0) 1 1 0 1
      [[0]] [0] _ [] Nat.one_pos rfl⟩

/-! ## C9: per-backend records and fault isolation in `predictImage` -/

lemma predictImageRecords_fst (classNames : List String) :
    ∀ models : List (String × Option PBackend),
      (predictImageRecords classNames models).map Prod.fst = models.map Prod.fst := by
  intro models
  induction models with
  | nil => rfl
  | cons km ms ih => simp only [predictImageRecords, List.map_cons] at ih ⊢; rw [ih]

lemma predictImageRecords_getElem? (classNames : List String)
    (models : List (String × Option PBackend)) (i : ℕ) :
    (predictImageRecords classNames models)[i]? =
      (models[i]?).map (fun km => (km.1, backendRecord classNames km.2)) := by
  simp [predictImageRecords, List.getElem?_map]

/-- C9: an accepted `predictImage` call returns one record per registered
backend kind, in enumeration order; a trained backend whose `predict` fails
contributes the per-kind error record (and, by the last conjunct, leaves every
other backend's record untouched — no per-backend failure aborts the call,
which returns `.ok` regardless of backend outcomes); an absent or untrained
backend contributes the `Model not trained` stub. -/
theorem predictImage_fault_isolation (s : PredictorState) (classNames : List String)
    (models : List (String × Option PBackend)) (url : String)
    (hs : s.isPredicting = false) (hu : url ≠ "") :
    (predictImage s classNames models (some url)).1 =
      .ok (predictImageRecords classNames models) ∧
    (predictImageRecords classNames models).map Prod.fst = models.map Prod.fst ∧
    (∀ (i : ℕ) (k : String) (b : PBackend) (e : String),
      models[i]? = some (k, some b) → b.isTrained = true →
      b.predictOutcome = .error e →
      (predictImageRecords classNames models)[i]? =
        some (k, { predictions := [("Prediction Error", 0)], inferenceTime := 0,
                   error := some e })) ∧
    (∀ (i : ℕ) (k : String), models[i]? = some (k, none) →
      (predictImageRecords classNames models)[i]? =
        some (k, { predictions := [("Model not trained", 0)], inferenceTime := 0,
                   error := none })) ∧
    (∀ (i : ℕ) (k : String) (b : PBackend),
      models[i]? = some (k, some b) → b.isTrained = false →
      (predictImageRecords classNames models)[i]? =
        some (k, { predictions := [("Model not trained", 0)], inferenceTime := 0,
                   error := none })) ∧
    (∀ (i : ℕ) (kb : String × Option PBackend) (j : ℕ), j ≠ i →
      (predictImageRecords classNames (models.set i kb))[j]? =
        (predictImageRecords classNames models)[j]?) := by
  refine ⟨?_, predictImageRecords_fst classNames models, ?_, ?_, ?_, ?_⟩
  · simp [predictImage, hs, hu]
  · intro i k b e hm hb he
    rw [predictImageRecords_getElem?, hm]
    simp [backendRecord, hb, he]
  · intro i k hm
    rw [predictImageRecords_getElem?, hm]
    simp [backendRecord]
  · intro i k b hm hb
    rw [predictImageRecords_getElem?, hm]
    simp [backendRecord, hb]
  · intro i kb j hj
    rw [predictImageRecords_getElem?, predictImageRecords_getElem?,
      List.getElem?_set_ne (fun hh => hj hh.symm)]

/-- C9 witness: one registered backend, trained, whose `predict` rejects. -/
theorem predictImage_fault_isolation_witness :
    (⟨false⟩ : PredictorState).isPredicting = false ∧ ("x" : String) ≠ "" ∧
    ((predictImage ⟨false⟩ [] [("randomForest", some ⟨true, .error "boom", 0⟩)]
        (some "x")).1 =
      .ok (predictImageRecords [] [("randomForest", some ⟨true, .error "boom", 0⟩)]) ∧
    (predictImageRecords [] [("randomForest", some ⟨true, .error "boom", 0⟩)]).map
        Prod.fst =
      [("randomForest", some (⟨true, .error "boom", 0⟩ : PBackend))].map Prod.fst ∧
    (∀ (i : ℕ) (k : String) (b : PBackend) (e : String),
      ([("randomForest", some (⟨true, .error "boom", 0⟩ : PBackend))])[i]? =
        some (k, some b) → b.isTrained = true → b.predictOutcome = .error e →
      (predictImageRecords [] [("randomForest", some ⟨true, .error "boom", 0⟩)])[i]? =
        some (k, { predictions := [("Prediction Error", 0)], inferenceTime := 0,
                   error := some e })) ∧
    (∀ (i : ℕ) (k : String),
      ([("randomForest", some (⟨true, .error "boom", 0⟩ : PBackend))])[i]? =
        some (k, none) →
      (predictImageRecords [] [("randomForest", some ⟨true, .error "boom", 0⟩)])[i]? =
        some (k, { predictions := [("Model not trained", 0)], inferenceTime := 0,
                   error := none })) ∧
    (∀ (i : ℕ) (k : String) (b : PBackend),
      ([("randomForest", some (⟨true, .error "boom", 0⟩ : PBackend))])[i]? =
        some (k, some b) → b.isTrained = false →
      (predictImageRecords [] [("randomForest", some ⟨true, .error "boom", 0⟩)])[i]? =
        some (k, { predictions := [("Model not trained", 0)], inferenceTime := 0,
                   error := none })) ∧
    (∀ (i : ℕ) (kb : String × Option PBackend) (j : ℕ), j ≠ i →
      (predictImageRecords []
        ([("randomForest", some (⟨true, .error "boom", 0⟩ : PBackend))].set i kb))[j]? =
        (predictImageRecords [] [("randomForest", some ⟨true, .error "boom", 0⟩)])[j]?)) :=
  ⟨rfl, by decide,
    predictImage_fault_isolation ⟨false⟩ [] [("randomForest", some ⟨true, .error "boom", 0⟩)]
      "x" rfl (by decide)⟩

end AIC
